import Mathlib

/-!
Shallow embedding of the open_deep_research TypeScript repository
(report-generation workflow built on a graph engine) and proofs about it.

Source files embedded:
- src/server/graph/state.ts            (Section, ReportState, SectionState)
- src/server/graph/configuration.ts    (SearchAPI, ensureDeepResearchConfiguration)
- src/server/graph/utils.ts            (getSearchParams, selectAndExecuteSearch,
                                        executeTavilySearch, deduplicateSources,
                                        formatSource)
- src/server/graph/graph.ts            (humanFeedback, compileFinalReport)
- src/server/graph/section/graph.ts    (searchWeb, writeSection and the
                                        research/write/grade loop)
- src/server/utils/postgresCheckpointer.ts

JavaScript numbers are modelled as `Int` (the values involved are integral),
JavaScript strings as `String`, `Record<string, T>` objects as association
lists `List (String × T)` in key-insertion order, and thrown exceptions as
`Except` values.
-/

namespace ODR

/-- Report section, from structuredOutputs.ts `SectionOutput` / state.ts `Section`:
name, description, research flag and content.  The TypeScript field `section`
of states is called `sec` here because `section` is a Lean keyword. -/
structure Section where
  name : String
  description : String
  research : Bool
  content : String
  deriving Repr, DecidableEq

/-- Search query object, from structuredOutputs.ts `SearchQueryOutput`. -/
structure SearchQuery where
  searchQuery : String
  deriving Repr, DecidableEq

/-- Default report structure string from configuration.ts
`DEFAULT_REPORT_STRUCTURE`. -/
def DEFAULT_REPORT_STRUCTURE : String :=
  "Use this structure to create a report on the user-provided topic:\n\n1. Introduction (no research needed)\n   - Brief overview of the topic area\n\n2. Main Body Sections:\n   - Each section should focus on a sub-topic of the user-provided topic\n   \n3. Conclusion\n   - Aim for 1 structural element (either a list of table) that distills the main body sections \n   - Provide a concise summary of the report\n"

/-- Resolved configuration, from configuration.ts `DeepResearchConfiguration`.
The `search_api` field is the runtime string value of the `SearchAPI` string
enum (for example `"tavily"`); `search_api_config` is the raw
`Record<string, any>` modelled as an association list with `Int` values. -/
structure DeepResearchConfig where
  report_structure : String
  number_of_queries : Int
  max_search_depth : Int
  planner_provider : String
  planner_model : String
  writer_provider : String
  writer_model : String
  search_api : String
  search_api_config : List (String × Int)
  deriving Repr, DecidableEq

/-- Caller-supplied configuration (`Partial<...>` in configuration.ts): every
field may be absent (`none` models the JavaScript `undefined`). -/
structure PartialDeepResearchConfig where
  report_structure : Option String := none
  number_of_queries : Option Int := none
  max_search_depth : Option Int := none
  planner_provider : Option String := none
  planner_model : Option String := none
  writer_provider : Option String := none
  writer_model : Option String := none
  search_api : Option String := none
  search_api_config : Option (List (String × Int)) := none
  deriving Repr

/-- JavaScript `x || d` for a possibly-absent string `x`: absent or falsy
(empty) strings are replaced by the default. -/
def jsOrString (v : Option String) (d : String) : String :=
  match v with
  | none => d
  | some s => if s = "" then d else s

/-- JavaScript `x || d` for a possibly-absent number `x`: absent or falsy
(zero) numbers are replaced by the default. -/
def jsOrInt (v : Option Int) (d : Int) : Int :=
  match v with
  | none => d
  | some n => if n = 0 then d else n

/-- Configuration resolver from configuration.ts
`ensureDeepResearchConfiguration`: every field of the caller-supplied
configuration is coalesced with `||` against a built-in default.  An object
(`search_api_config`) is only falsy when absent, so there `||` only replaces
`undefined`. -/
def ensureDeepResearchConfiguration (c : PartialDeepResearchConfig) : DeepResearchConfig :=
  { report_structure := jsOrString c.report_structure DEFAULT_REPORT_STRUCTURE
    number_of_queries := jsOrInt c.number_of_queries 2
    max_search_depth := jsOrInt c.max_search_depth 2
    planner_provider := jsOrString c.planner_provider "anthropic"
    planner_model := jsOrString c.planner_model "claude-3-7-sonnet-latest"
    writer_provider := jsOrString c.writer_provider "anthropic"
    writer_model := jsOrString c.writer_model "claude-3-5-sonnet-latest"
    search_api := jsOrString c.search_api "tavily"
    search_api_config := c.search_api_config.getD [] }

/-- Allow-list table from utils.ts `getSearchParams` (`SEARCH_API_PARAMS`),
keyed by the runtime string values of the `SearchAPI` enum; `none` models a
provider string that is not a key of the table. -/
def SEARCH_API_PARAMS : String → Option (List String)
  | "exa" => some ["max_characters", "num_results", "include_domains", "exclude_domains", "subpages"]
  | "tavily" => some []
  | "perplexity" => some []
  | "arxiv" => some ["load_max_docs", "get_full_documents", "load_all_available_meta"]
  | "pubmed" => some ["top_k_results", "email", "api_key", "doc_content_chars_max"]
  | "linkup" => some ["depth"]
  | "duckduckgo" => some []
  | "googlesearch" => some []
  | _ => none

/-- Provider parameter filter from utils.ts `getSearchParams`: empty config
returns `{}`, a provider that is not a key of `SEARCH_API_PARAMS` returns
`{}`, otherwise the config keys are filtered through the provider's
allow-list (iteration in key-insertion order, values passed through). -/
def getSearchParams (searchAPI : String) (searchAPIConfig : List (String × Int)) :
    List (String × Int) :=
  if searchAPIConfig.isEmpty then []
  else
    match SEARCH_API_PARAMS searchAPI with
    | none => []
    | some acceptedParams =>
        searchAPIConfig.filter (fun kv => acceptedParams.contains kv.1)

/-- Parent workflow state, from state.ts `ReportState` (lines 8-27).  Every
field is declared there as a plain `Annotation<...>()` with no reducer. -/
structure ReportState where
  topic : String
  feedbackOnReportPlan : String
  sections : List Section
  completedSections : List Section
  reportSectionsFromResearch : String
  finalReport : String
  deriving Repr, DecidableEq

/-- Section-workflow state, from state.ts `SectionState` (lines 29-66). -/
structure SectionState where
  topic : String
  sec : Section
  search_iterations : Int
  search_queries : List SearchQuery
  source_str : String
  report_sections_from_research : String
  completed_sections : List Section
  writer_provider : String
  writer_model : String
  deriving Repr, DecidableEq

/-- Payload of one `Send('buildSectionWithWebResearch', ...)` built by
`humanFeedback` on approval (graph.ts lines 111-117). -/
structure SectionSend where
  topic : String
  sec : Section
  search_iterations : Int
  writer_provider : String
  writer_model : String
  deriving Repr, DecidableEq

/-- Routing decision returned by `humanFeedback` (graph.ts lines 121-130):
either a fan-out over per-section sends, or a `goto generateReportPlan`
carrying the feedback string as a state update. -/
inductive HumanFeedbackRoute where
  | approve (sends : List SectionSend)
  | regenerate (feedbackOnReportPlan : String)
  deriving Repr, DecidableEq

/-- JavaScript `s.toLowerCase()`, modelled as per-character lowercasing over
the string's character list (the source only compares the lower-cased resume
string against the ASCII literal `"true"`). -/
def jsToLowerCase (s : String) : String :=
  String.mk (s.data.map Char.toLower)

/-- Human-review step from graph.ts `humanFeedback` (lines 93-131): the resume
value is approval exactly when its `toLowerCase()` equals `"true"`; approval
fans out one send per research-requiring section (the source's for-loop with a
`section.research` guard, written here as filter-then-map) with hardcoded
`search_iterations: 0`, `writer_provider: 'openai'`,
`writer_model: 'gpt-4o-mini'`; any other string routes back to
`generateReportPlan` with `feedbackOnReportPlan` set to that string. -/
def humanFeedback (topic : String) (sections : List Section) (feedback : String) :
    HumanFeedbackRoute :=
  if jsToLowerCase feedback = "true" then
    .approve ((sections.filter (fun s => s.research)).map (fun s =>
      { topic := topic
        sec := s
        search_iterations := 0
        writer_provider := "openai"
        writer_model := "gpt-4o-mini" }))
  else
    .regenerate feedback

/-- Initial `SectionState` of a fan-out branch started from a send: the
channels present in the send payload take its values, the remaining channels
start unset (modelled by their neutral values). -/
def initialSectionState (send : SectionSend) : SectionState :=
  { topic := send.topic
    sec := send.sec
    search_iterations := send.search_iterations
    search_queries := []
    source_str := ""
    report_sections_from_research := ""
    completed_sections := []
    writer_provider := send.writer_provider
    writer_model := send.writer_model }

/-- Modelled from the spec: the grading verdict of `FeedbackOutput` (its zod
schema file is not under src/, only its import and uses are).  Spec section
4.3: "a grading result yields a pass/fail verdict". -/
inductive Grade where
  | pass
  | fail
  deriving Repr, DecidableEq

/-- Modelled from the spec: the grader output of `FeedbackOutput` — a
pass/fail verdict and, on failure, a fresh set of follow-up queries. -/
structure Feedback where
  grade : Grade
  followUpQueries : List SearchQuery
  deriving Repr, DecidableEq

/-- External collaborators of the section workflow (search provider, drafting
model, grading model), abstracted as functions of the current state. -/
structure SectionOracles where
  searchResult : SectionState → String
  draft : SectionState → String
  feedback : SectionState → Feedback

/-- The `searchWeb` node from section/graph.ts (lines 62-78): executes the
search over the state's queries and increments `search_iterations` by exactly
1 per pass. -/
def searchWebStep (o : SectionOracles) (st : SectionState) : SectionState :=
  { st with
    source_str := o.searchResult st
    search_iterations := st.search_iterations + 1 }

/-- State after the drafting call inside `writeSection` (section/graph.ts
lines 112-118): `section.content` is overwritten with the drafted text, and
grading then sees the updated section. -/
def gradedState (o : SectionOracles) (st : SectionState) : SectionState :=
  { st with sec := { st.sec with content := o.draft st } }

/-- Routing decision of `writeSection` (section/graph.ts lines 159-170):
either `goto END` publishing the section to `completed_sections`, or
`goto searchWeb` with substituted queries and the updated section. -/
inductive WriteSectionResult where
  | toEnd (completed : Section)
  | toSearchWeb (st : SectionState)
  deriving Repr, DecidableEq

/-- The `writeSection` node from section/graph.ts (lines 91-171): draft the
section, grade it, then route to END (publishing the current section even if
still failing) when the grade is pass or `search_iterations` has reached
`max_search_depth`, and otherwise loop back to `searchWeb` with the grader's
follow-up queries substituted for `search_queries`. -/
def writeSectionStep (o : SectionOracles) (maxSearchDepth : Int) (st : SectionState) :
    WriteSectionResult :=
  let st2 := gradedState o st
  let fb := o.feedback st2
  if fb.grade = Grade.pass ∨ st.search_iterations ≥ maxSearchDepth then
    .toEnd st2.sec
  else
    .toSearchWeb { st2 with search_queries := fb.followUpQueries }

/-- Driver for the section workflow's search/write loop, following the edges
`searchWeb → writeSection` and the routing command of `writeSection`
(section/graph.ts lines 181-183 and 159-170).  It returns the published
section together with the final `search_iterations` count; the fuel argument
only bounds the evaluation and `none` means the loop did not finish within
that many passes. -/
def runSectionLoop (o : SectionOracles) (maxSearchDepth : Int) (st : SectionState) :
    Nat → Option (Section × Int)
  | 0 => none
  | fuel + 1 =>
    let st1 := searchWebStep o st
    match writeSectionStep o maxSearchDepth st1 with
    | .toEnd completed => some (completed, st1.search_iterations)
    | .toSearchWeb st2 => runSectionLoop o maxSearchDepth st2 fuel

/-- Value written to a state channel (a string channel, a `Section[]` channel,
or the single `Section` object that `writeSection` stores into
`completed_sections`, section/graph.ts line 162). -/
inductive ChannelValue where
  | str (s : String)
  | sectionList (l : List Section)
  | sectionVal (s : Section)
  deriving Repr, DecidableEq

/-- Application of one keyed write to the parent `ReportState`.  Every
`ReportState` channel is declared in state.ts (lines 8-27) as a plain
`Annotation<...>()` with no reducer, i.e. a last-value channel: a write
replaces the channel's value.  A write keyed by a string that is not a
declared `ReportState` channel updates no field. -/
def applyReportStateWrite (st : ReportState) (w : String × ChannelValue) : ReportState :=
  match w with
  | ("topic", .str v) => { st with topic := v }
  | ("feedbackOnReportPlan", .str v) => { st with feedbackOnReportPlan := v }
  | ("sections", .sectionList v) => { st with sections := v }
  | ("completedSections", .sectionList v) => { st with completedSections := v }
  | ("reportSectionsFromResearch", .str v) => { st with reportSectionsFromResearch := v }
  | ("finalReport", .str v) => { st with finalReport := v }
  | _ => st

/-- Merge of one partial update (a list of keyed writes) into the parent
state. -/
def applyReportStateUpdate (st : ReportState) (u : List (String × ChannelValue)) :
    ReportState :=
  u.foldl applyReportStateWrite st

/-- Declared output of one section-workflow branch, from state.ts
`SectionOutputState` (lines 68-73): a single field named
`completed_sections`, holding the section published by `writeSection`
(section/graph.ts line 162). -/
def sectionBranchOutput (completed : Section) : List (String × ChannelValue) :=
  [("completed_sections", ChannelValue.sectionVal completed)]

/-- Fan-in: the declared outputs of all completed branches are merged into the
parent state one after the other. -/
def fanIn (st : ReportState) (branchOutputs : List (List (String × ChannelValue))) :
    ReportState :=
  branchOutputs.foldl applyReportStateUpdate st

/-- Tavily search result, from the `TavilySearchResult` interface in utils.ts
(lines 150-157).  `rawContent` is optional there; the numeric metadata fields
`score` and `publishedDate` are not used by any embedded function and are
omitted. -/
structure TavilySearchResult where
  title : String
  url : String
  content : String
  rawContent : Option String
  deriving Repr, DecidableEq

/-- Tavily search response; of its fields only `results` is used by the
embedded functions. -/
structure TavilySearchResponse where
  results : List TavilySearchResult
  deriving Repr, DecidableEq

/-- URL-deduplication from utils.ts `deduplicateSources` (lines 159-175):
flatten the responses' result lists, then keep only the first occurrence of
each URL, preserving the flattened order (the source's `Set` of seen URLs is
modelled by a list, whose internal order is irrelevant to membership). -/
def deduplicateSources (searchResponses : List TavilySearchResponse) :
    List TavilySearchResult :=
  let sourceList := searchResponses.foldl
    (fun acc response =>
      if response.results.length > 0 then acc ++ response.results else acc) []
  (sourceList.foldl
    (fun (acc : List String × List TavilySearchResult) source =>
      if acc.1.contains source.url then acc
      else (source.url :: acc.1, acc.2 ++ [source])) ([], [])).2

/-- Source formatting from utils.ts `formatSource` (lines 177-194): a header
then one block per source; raw content is truncated to
`maxTokensPerSource * 4` characters (4 characters per token) with a
`...[truncated]` marker. -/
def formatSource (sourceList : List TavilySearchResult) (includeRawContent : Bool)
    (maxTokensPerSource : Nat) : String :=
  sourceList.foldl
    (fun formattedText source =>
      let t := formattedText ++ "Source " ++ source.title ++ ":\n===\n"
      let t := t ++ "URL: " ++ source.url ++ "\n===\n"
      let t := t ++ "Most relevant content from source: " ++ source.content ++ "\n===\n"
      if includeRawContent then
        let charLimit := maxTokensPerSource * 4
        let rawContent := source.rawContent.getD ""
        let rawContent :=
          if rawContent.length > charLimit then
            rawContent.take charLimit ++ "...[truncated]"
          else rawContent
        t ++ "Full source content limited to " ++ toString maxTokensPerSource
          ++ " tokens: " ++ rawContent ++ "\n\n"
      else t)
    "Sources:\n\n"

/-- The Tavily provider call from utils.ts `executeTavilySearch` (lines
90-110).  The whole body is wrapped in try/catch; the underlying provider
request is abstracted as `outcome`, and on any error the catch branch logs and
returns the empty response list instead of rethrowing. -/
def executeTavilySearch (outcome : Except String (List TavilySearchResponse)) :
    List TavilySearchResponse :=
  match outcome with
  | .ok searchResults => searchResults
  | .error _ => []

/-- Provider dispatch from utils.ts `selectAndExecuteSearch` (lines 40-82),
switching on the runtime string value of the `SearchAPI` enum.  Every
provider except Tavily throws (`Except.error`); the Tavily case runs
`executeTavilySearch`, deduplicates and formats.  The query list and the
filtered params only feed the provider request (abstracted into
`tavilyOutcome`) and log lines, so they are not parameters here. -/
def selectAndExecuteSearch (searchAPI : String)
    (tavilyOutcome : Except String (List TavilySearchResponse)) : Except String String :=
  match searchAPI with
  | "exa" => .error "Exa search not implemented yet."
  | "tavily" =>
    let searchResults := executeTavilySearch tavilyOutcome
    let deduplicatedResults := deduplicateSources searchResults
    .ok (formatSource deduplicatedResults true 4000)
  | "perplexity" => .error "Perplexity search not implemented yet."
  | "arxiv" => .error "ArXiv search not implemented yet."
  | "pubmed" => .error "PubMed search not implemented yet."
  | "linkup" => .error "LinkUp search not implemented yet."
  | "duckduckgo" => .error "DuckDuckGo search not implemented yet."
  | "googlesearch" => .error "Google search not implemented yet."
  | other => .error ("Unsupported search API: " ++ other)

/-- JavaScript object assignment `m[k] = v` on a string record modelled as an
association list in key-insertion order: an existing key keeps its position
and gets the new value, a new key is appended. -/
def recordSet (m : List (String × String)) (k v : String) : List (String × String) :=
  if m.any (fun kv => kv.1 == k) then
    m.map (fun kv => if kv.1 == k then (k, v) else kv)
  else m ++ [(k, v)]

/-- JavaScript property read `m[k]` on a string record: `none` models
`undefined`. -/
def recordGet (m : List (String × String)) (k : String) : Option String :=
  (m.find? (fun kv => kv.1 == k)).map (fun kv => kv.2)

/-- Final compilation from graph.ts `compileFinalReport` (lines 193-208):
build a name-to-content record from `completedSections` (later entries
overwrite), then walk the plan's `sections` in their original order replacing
each section's content when the record holds a truthy (present and non-empty)
entry for its name, and join the contents with blank lines. -/
def compileFinalReport (st : ReportState) : String :=
  let completedSections :=
    st.completedSections.foldl (fun m s => recordSet m s.name s.content) []
  let sections := st.sections.map (fun s =>
    match recordGet completedSections s.name with
    | some c => if c = "" then s else { s with content := c }
    | none => s)
  String.intercalate "\n\n" (sections.map (fun s => s.content))

/-- HTTP-style error produced with `createError` in the Nitro server layer. -/
structure HttpError where
  statusCode : Nat
  message : String
  deriving Repr, DecidableEq

/-- Test whether `pat` occurs as a contiguous run inside the character
list. -/
def listContainsInfix (pat : List Char) : List Char → Bool
  | [] => pat.isEmpty
  | c :: rest => pat.isPrefixOf (c :: rest) || listContainsInfix pat rest

/-- JavaScript `s.includes(pat)` substring test. -/
def jsIncludes (s pat : String) : Bool :=
  listContainsInfix pat.toList s.toList

/-- Checkpoint-store setup from postgresCheckpointer.ts `postgresCheckpointer`
(lines 5-28): the pool construction and `checkpointer.setup()` are abstracted
as `setup`; on failure, an error whose message contains `ECONNREFUSED` is
rethrown as a 503 with a try-again-later message, and any other failure as a
500.  (The source's `error.message && ...` guard sends an empty message to
the 500 branch, which the substring test also does.) -/
def postgresCheckpointer (setup : Except String Unit) : Except HttpError Unit :=
  match setup with
  | .ok _ => .ok ()
  | .error msg =>
    if jsIncludes msg "ECONNREFUSED" then
      .error { statusCode := 503
               message := "Unable to connect to Postgres. Please try again later." }
    else
      .error { statusCode := 500
               message := "Error setting up PostgresSaver." }

/-- Provider/model pair passed to `initChatModel`. -/
structure ModelSpec where
  provider : String
  model : String
  deriving Repr, DecidableEq

/-- Writer model chosen by the section workflow's `generateQueries`
(section/graph.ts lines 29-31): it reads `state.writer_provider` and
`state.writer_model`; the resolved configuration is in scope there but not
consulted for the writer model. -/
def generateQueriesWriterModel (st : SectionState) (_configurable : DeepResearchConfig) :
    ModelSpec :=
  { provider := st.writer_provider, model := st.writer_model }

/-- Writer model chosen by the section workflow's `writeSection`
(section/graph.ts lines 108-110): likewise read from the state, not from the
resolved configuration. -/
def writeSectionWriterModel (st : SectionState) (_configurable : DeepResearchConfig) :
    ModelSpec :=
  { provider := st.writer_provider, model := st.writer_model }

/-! Example objects used by concrete witnesses. -/

/-- Example research-requiring section. -/
def exSection : Section :=
  { name := "A", description := "d", research := true, content := "" }

/-- The send that `humanFeedback` builds for `exSection` on approval. -/
def exSend : SectionSend :=
  { topic := "t", sec := exSection, search_iterations := 0
    writer_provider := "openai", writer_model := "gpt-4o-mini" }

/-- C9 -- For every caller-supplied configuration,
`ensureDeepResearchConfiguration` replaces any falsy override with the
built-in default through `||` coalescing: `number_of_queries = 0` and
`max_search_depth = 0` resolve to 2, empty-string structure/model/provider
overrides resolve to their defaults, and the resolved query count and
iteration budget are never zero. -/
theorem ensureConfiguration_falsy_overrides_defaults (pc : PartialDeepResearchConfig) :
    (ensureDeepResearchConfiguration { pc with number_of_queries := some 0 }).number_of_queries = 2
  ∧ (ensureDeepResearchConfiguration { pc with max_search_depth := some 0 }).max_search_depth = 2
  ∧ (ensureDeepResearchConfiguration { pc with report_structure := some "" }).report_structure
      = DEFAULT_REPORT_STRUCTURE
  ∧ (ensureDeepResearchConfiguration { pc with planner_provider := some "" }).planner_provider
      = "anthropic"
  ∧ (ensureDeepResearchConfiguration { pc with planner_model := some "" }).planner_model
      = "claude-3-7-sonnet-latest"
  ∧ (ensureDeepResearchConfiguration { pc with writer_provider := some "" }).writer_provider
      = "anthropic"
  ∧ (ensureDeepResearchConfiguration { pc with writer_model := some "" }).writer_model
      = "claude-3-5-sonnet-latest"
  ∧ (ensureDeepResearchConfiguration pc).number_of_queries ≠ 0
  ∧ (ensureDeepResearchConfiguration pc).max_search_depth ≠ 0 := by
  refine ⟨rfl, rfl, rfl, rfl, rfl, rfl, rfl, ?_, ?_⟩
  · cases h : pc.number_of_queries with
    | none => simp [ensureDeepResearchConfiguration, jsOrInt, h]
    | some n =>
      simp only [ensureDeepResearchConfiguration, jsOrInt, h]
      split <;> omega
  · cases h : pc.max_search_depth with
    | none => simp [ensureDeepResearchConfiguration, jsOrInt, h]
    | some n =>
      simp only [ensureDeepResearchConfiguration, jsOrInt, h]
      split <;> omega

/-- C6 -- `getSearchParams` keeps exactly the key-value pairs of the raw
config whose keys appear in the provider's allow-list (values unchanged,
unknown keys dropped), returns the empty config for a provider that is not in
the allow-list table, and in particular for LinkUp (allow-list `["depth"]`)
and raw config `{depth: 3, bogus: 1}` returns exactly `{depth: 3}`. -/
theorem getSearchParams_allowlist_filter :
    (∀ (p : String) (L : List String) (cfg : List (String × Int)),
      SEARCH_API_PARAMS p = some L →
        getSearchParams p cfg = cfg.filter (fun kv => L.contains kv.1))
  ∧ (∀ (p : String) (cfg : List (String × Int)),
      SEARCH_API_PARAMS p = none → getSearchParams p cfg = [])
  ∧ SEARCH_API_PARAMS "linkup" = some ["depth"]
  ∧ getSearchParams "linkup" [("depth", 3), ("bogus", 1)] = [("depth", 3)] := by
  refine ⟨?_, ?_, rfl, rfl⟩
  · intro p L cfg h
    cases cfg with
    | nil => simp [getSearchParams]
    | cons a l => simp [getSearchParams, h]
  · intro p cfg h
    cases cfg with
    | nil => simp [getSearchParams]
    | cons a l => simp [getSearchParams, h]

/-- Witness for C6 at a concrete provider and configs. -/
theorem getSearchParams_allowlist_filter_witness :
    getSearchParams "linkup" [("depth", 3), ("bogus", 1)]
      = [("depth", (3 : Int)), ("bogus", 1)].filter (fun kv => (["depth"]).contains kv.1)
  ∧ getSearchParams "notaprovider" [("depth", 3)] = [] :=
  ⟨getSearchParams_allowlist_filter.1 "linkup" ["depth"] [("depth", 3), ("bogus", 1)] rfl,
   getSearchParams_allowlist_filter.2.1 "notaprovider" [("depth", 3)] rfl⟩

/-- C3 -- The resume string approves the plan (routing to the fan-out, with
no plan regeneration) if and only if its lower-casing equals `"true"`; in
particular `"true"`, `"True"`, `"TRUE"` all approve, and any other string —
including the empty string — routes to `generateReportPlan` with
`feedbackOnReportPlan` set to exactly that string. -/
theorem humanFeedback_approval_iff_lowercase_true (topic : String)
    (sections : List Section) (s : String) :
    ((∃ sends, humanFeedback topic sections s = .approve sends) ↔ jsToLowerCase s = "true")
  ∧ (jsToLowerCase s ≠ "true" → humanFeedback topic sections s = .regenerate s)
  ∧ (∃ sends, humanFeedback topic sections "true" = .approve sends)
  ∧ (∃ sends, humanFeedback topic sections "True" = .approve sends)
  ∧ (∃ sends, humanFeedback topic sections "TRUE" = .approve sends)
  ∧ jsToLowerCase "" ≠ "true" := by
  refine ⟨⟨?_, ?_⟩, ?_, ⟨_, rfl⟩, ⟨_, rfl⟩, ⟨_, rfl⟩, by decide⟩
  · rintro ⟨sends, h⟩
    by_contra hne
    simp [humanFeedback, hne] at h
  · intro h
    exact ⟨_, by unfold humanFeedback; rw [if_pos h]⟩
  · intro h
    simp [humanFeedback, h]

/-- Witness for C3 at the concrete rejection string. -/
theorem humanFeedback_approval_witness :
    humanFeedback "t" [exSection] "please add more detail"
      = .regenerate "please add more detail" :=
  (humanFeedback_approval_iff_lowercase_true "t" [exSection] "please add more detail").2.1
    (by decide)

/-- C10 -- Every fan-out branch started on plan approval carries the fixed
writer pair `writer_provider = "openai"`, `writer_model = "gpt-4o-mini"` and
`search_iterations = 0`, and the section workflow's `generateQueries` and
`writeSection` take the writer model from this state, not from the resolved
configuration (which is ignored for the writer model). -/
theorem fanout_sends_fixed_writer_model (topic : String) (sections : List Section)
    (s : String) (sends : List SectionSend) (cfg : DeepResearchConfig)
    (happrove : humanFeedback topic sections s = .approve sends)
    (send : SectionSend) (hmem : send ∈ sends) :
    send.writer_provider = "openai"
  ∧ send.writer_model = "gpt-4o-mini"
  ∧ send.search_iterations = 0
  ∧ generateQueriesWriterModel (initialSectionState send) cfg
      = { provider := "openai", model := "gpt-4o-mini" }
  ∧ writeSectionWriterModel (initialSectionState send) cfg
      = { provider := "openai", model := "gpt-4o-mini" } := by
  unfold humanFeedback at happrove
  split at happrove
  · injection happrove with h2
    subst h2
    rw [List.mem_map] at hmem
    obtain ⟨t, _, rfl⟩ := hmem
    exact ⟨rfl, rfl, rfl, rfl, rfl⟩
  · exact absurd happrove (by simp)

/-- Witness for C10: the branch for `exSection` under the all-defaults
configuration (whose own writer model is the Anthropic default). -/
theorem fanout_sends_fixed_writer_model_witness :
    exSend.writer_provider = "openai"
  ∧ exSend.writer_model = "gpt-4o-mini"
  ∧ exSend.search_iterations = 0
  ∧ generateQueriesWriterModel (initialSectionState exSend)
      (ensureDeepResearchConfiguration {}) = { provider := "openai", model := "gpt-4o-mini" }
  ∧ writeSectionWriterModel (initialSectionState exSend)
      (ensureDeepResearchConfiguration {}) = { provider := "openai", model := "gpt-4o-mini" } :=
  fanout_sends_fixed_writer_model "t" [exSection] "true" [exSend]
    (ensureDeepResearchConfiguration {}) rfl exSend (by simp)

/-- C8 -- A setup failure whose error message contains `ECONNREFUSED` (the
backing database cannot be reached) is surfaced as a 503 with a
try-again-later message, while any other setup failure is surfaced as a
generic 500; the two status codes are distinct. -/
theorem postgresCheckpointer_unavailable_distinct :
    (∀ msg, jsIncludes msg "ECONNREFUSED" = true →
      postgresCheckpointer (Except.error msg)
        = Except.error { statusCode := 503
                         message := "Unable to connect to Postgres. Please try again later." })
  ∧ (∀ msg, jsIncludes msg "ECONNREFUSED" = false →
      postgresCheckpointer (Except.error msg)
        = Except.error { statusCode := 500
                         message := "Error setting up PostgresSaver." })
  ∧ (503 : Nat) ≠ 500 := by
  refine ⟨?_, ?_, by omega⟩
  · intro msg h
    simp [postgresCheckpointer, h]
  · intro msg h
    simp [postgresCheckpointer, h]

/-- Witness for C8 at a concrete connection-refused message and a concrete
unrelated message. -/
theorem postgresCheckpointer_unavailable_witness :
    postgresCheckpointer (Except.error "connect ECONNREFUSED 127.0.0.1:5432")
      = Except.error { statusCode := 503
                       message := "Unable to connect to Postgres. Please try again later." }
  ∧ postgresCheckpointer (Except.error "relation checkpoints does not exist")
      = Except.error { statusCode := 500
                       message := "Error setting up PostgresSaver." } :=
  ⟨postgresCheckpointer_unavailable_distinct.1 "connect ECONNREFUSED 127.0.0.1:5432" rfl,
   postgresCheckpointer_unavailable_distinct.2.1 "relation checkpoints does not exist" rfl⟩

/-- C5 counterexample -- A Tavily provider request that fails does NOT
propagate as an error: the step succeeds with the empty formatted source text
`"Sources:\n\n"`. -/
theorem tavily_failure_yields_ok_empty_sources :
    selectAndExecuteSearch "tavily" (Except.error "ECONNREFUSED")
      = Except.ok "Sources:\n\n" := rfl

/-- C5 amended -- Unimplemented providers throw a provider-identified
workflow-fatal error, but a failing Tavily request is caught inside
`executeTavilySearch` (returning an empty response list), so the Tavily path
always yields the successful empty formatted source text instead of an
error. -/
theorem search_failure_behavior_amended :
    (∀ e, selectAndExecuteSearch "tavily" (Except.error e) = Except.ok "Sources:\n\n")
  ∧ (∀ out, selectAndExecuteSearch "exa" out
      = Except.error "Exa search not implemented yet.")
  ∧ (∀ out, selectAndExecuteSearch "perplexity" out
      = Except.error "Perplexity search not implemented yet.")
  ∧ (∀ out, selectAndExecuteSearch "arxiv" out
      = Except.error "ArXiv search not implemented yet.")
  ∧ (∀ out, selectAndExecuteSearch "pubmed" out
      = Except.error "PubMed search not implemented yet.")
  ∧ (∀ out, selectAndExecuteSearch "linkup" out
      = Except.error "LinkUp search not implemented yet.")
  ∧ (∀ out, selectAndExecuteSearch "duckduckgo" out
      = Except.error "DuckDuckGo search not implemented yet.")
  ∧ (∀ out, selectAndExecuteSearch "googlesearch" out
      = Except.error "Google search not implemented yet.") :=
  ⟨fun _ => rfl, fun _ => rfl, fun _ => rfl, fun _ => rfl,
   fun _ => rfl, fun _ => rfl, fun _ => rfl, fun _ => rfl⟩

/-- C1 -- Evaluation of the fan-in against the declared channels: a branch
output keyed `completed_sections` (state.ts `SectionOutputState`) matches no
channel of `ReportState` (whose field is `completedSections`, declared with
no accumulating reducer), so after any number of branch outputs the parent's
`completedSections` is unchanged — in particular, for one approved research
section the fan-in leaves 0 entries where the claim requires 1. -/
theorem fanIn_drops_branch_completed_sections :
    (∀ (st : ReportState) (completed : List Section),
      (fanIn st (completed.map sectionBranchOutput)).completedSections
        = st.completedSections)
  ∧ (fanIn
      { topic := "t", feedbackOnReportPlan := "", sections := [exSection]
        completedSections := [], reportSectionsFromResearch := "", finalReport := "" }
      [sectionBranchOutput { exSection with content := "researched content" }]
     ).completedSections.length = 0 := by
  constructor
  · intro st completed
    induction completed generalizing st with
    | nil => rfl
    | cons c rest ih =>
      have h1 : applyReportStateUpdate st (sectionBranchOutput c) = st := rfl
      calc (fanIn st ((c :: rest).map sectionBranchOutput)).completedSections
          = (fanIn (applyReportStateUpdate st (sectionBranchOutput c))
              (rest.map sectionBranchOutput)).completedSections := rfl
        _ = (fanIn st (rest.map sectionBranchOutput)).completedSections := by rw [h1]
        _ = st.completedSections := ih st
  · rfl

/-- Helper: when the loop-continuation condition fails, the source's END
condition (pass, or iteration budget reached) holds. -/
lemma stop_cond_of_not_continue (g : Grade) (i depth : Int)
    (hn : ¬(g = Grade.fail ∧ i < depth)) : g = Grade.pass ∨ i ≥ depth := by
  cases g with
  | pass => exact Or.inl rfl
  | fail =>
    right
    simp only [true_and, not_lt] at hn
    exact hn

/-- Helper: `writeSection` loops back to `searchWeb`, substituting the
follow-up queries, when the grade is fail and the budget is not reached. -/
lemma writeSectionStep_fail_continue (o : SectionOracles) (depth : Int) (st : SectionState)
    (hg : (o.feedback (gradedState o st)).grade = Grade.fail)
    (hlt : st.search_iterations < depth) :
    writeSectionStep o depth st = .toSearchWeb
      { gradedState o st with
        search_queries := (o.feedback (gradedState o st)).followUpQueries } := by
  have hcond : ¬((o.feedback (gradedState o st)).grade = Grade.pass
      ∨ st.search_iterations ≥ depth) := by
    rw [hg]
    simp only [not_or]
    exact ⟨by simp, by omega⟩
  simp only [writeSectionStep]
  rw [if_neg hcond]

/-- Helper: `writeSection` routes to END, publishing the drafted section,
when the grade is pass or the iteration budget is reached. -/
lemma writeSectionStep_stop (o : SectionOracles) (depth : Int) (st : SectionState)
    (h : (o.feedback (gradedState o st)).grade = Grade.pass
      ∨ st.search_iterations ≥ depth) :
    writeSectionStep o depth st = .toEnd (gradedState o st).sec := by
  simp only [writeSectionStep]
  rw [if_pos h]

/-- Helper: one unfolding of the loop driver in the continue case. -/
lemma runSectionLoop_continue (o : SectionOracles) (depth : Int) (st : SectionState)
    (fuel : Nat)
    (hg : (o.feedback (gradedState o (searchWebStep o st))).grade = Grade.fail)
    (hlt : (searchWebStep o st).search_iterations < depth) :
    runSectionLoop o depth st (fuel + 1)
      = runSectionLoop o depth
          { gradedState o (searchWebStep o st) with
            search_queries :=
              (o.feedback (gradedState o (searchWebStep o st))).followUpQueries }
          fuel := by
  simp only [runSectionLoop]
  rw [writeSectionStep_fail_continue o depth (searchWebStep o st) hg hlt]

/-- Helper: one unfolding of the loop driver in the terminate case. -/
lemma runSectionLoop_stop (o : SectionOracles) (depth : Int) (st : SectionState)
    (fuel : Nat)
    (h : (o.feedback (gradedState o (searchWebStep o st))).grade = Grade.pass
      ∨ (searchWebStep o st).search_iterations ≥ depth) :
    runSectionLoop o depth st (fuel + 1)
      = some ((gradedState o (searchWebStep o st)).sec,
              (searchWebStep o st).search_iterations) := by
  simp only [runSectionLoop]
  rw [writeSectionStep_stop o depth (searchWebStep o st) h]

/-- C2 -- `writeSection` routes back to `searchWeb` exactly when the grading
verdict is fail and `search_iterations < max_search_depth`, substituting the
grader's follow-up queries; otherwise it routes to END and emits the current
(possibly still failing) section.  `searchWeb` increments `search_iterations`
by exactly 1 per pass, and with `max_search_depth = 2` and an always-fail
grader a branch starting at 0 iterations performs exactly 2 search iterations
— it terminates within 2 passes whatever extra fuel is available, and does
not terminate within 1. -/
theorem writeSection_loop_policy_and_bounded_iterations
    (o : SectionOracles) (depth : Int) (st : SectionState) :
    ((∃ st2, writeSectionStep o depth st = .toSearchWeb st2) ↔
      ((o.feedback (gradedState o st)).grade = Grade.fail
        ∧ st.search_iterations < depth))
  ∧ ((o.feedback (gradedState o st)).grade = Grade.fail ∧ st.search_iterations < depth →
      writeSectionStep o depth st = .toSearchWeb
        { gradedState o st with
          search_queries := (o.feedback (gradedState o st)).followUpQueries })
  ∧ (¬((o.feedback (gradedState o st)).grade = Grade.fail ∧ st.search_iterations < depth) →
      writeSectionStep o depth st = .toEnd (gradedState o st).sec)
  ∧ (searchWebStep o st).search_iterations = st.search_iterations + 1
  ∧ ((∀ s', (o.feedback s').grade = Grade.fail) → st.search_iterations = 0 →
      (∀ fuel : Nat,
        Option.map (fun r => r.2) (runSectionLoop o 2 st (fuel + 2)) = some 2)
      ∧ runSectionLoop o 2 st 1 = none) := by
  refine ⟨⟨?_, ?_⟩, ?_, ?_, rfl, ?_⟩
  · rintro ⟨st2, h⟩
    by_contra hn
    rw [writeSectionStep_stop o depth st
      (stop_cond_of_not_continue _ _ _ hn)] at h
    exact absurd h (by simp)
  · rintro ⟨hg, hlt⟩
    exact ⟨_, writeSectionStep_fail_continue o depth st hg hlt⟩
  · rintro ⟨hg, hlt⟩
    exact writeSectionStep_fail_continue o depth st hg hlt
  · intro hn
    exact writeSectionStep_stop o depth st (stop_cond_of_not_continue _ _ _ hn)
  · intro hfail h0
    have hs1 : (searchWebStep o st).search_iterations = 1 := by
      simp [searchWebStep, h0]
    constructor
    · intro fuel
      rw [runSectionLoop_continue o 2 st (fuel + 1) (hfail _) (by rw [hs1]; omega)]
      rw [runSectionLoop_stop o 2 _ fuel (Or.inr (by
        show (_ : SectionState).search_iterations + 1 ≥ 2
        have h1 : ({ gradedState o (searchWebStep o st) with
            search_queries :=
              (o.feedback (gradedState o (searchWebStep o st))).followUpQueries }
            : SectionState).search_iterations = 1 := hs1
        rw [h1]
        omega))]
      simp only [Option.map_some']
      congr 1
      show (_ : SectionState).search_iterations + 1 = 2
      have h1 : ({ gradedState o (searchWebStep o st) with
          search_queries :=
            (o.feedback (gradedState o (searchWebStep o st))).followUpQueries }
          : SectionState).search_iterations = 1 := hs1
      rw [h1]
      omega
    · rw [runSectionLoop_continue o 2 st 0 (hfail _) (by rw [hs1]; omega)]
      rfl

/-- Always-fail grading oracle used by the C2 witness. -/
def alwaysFailOracle : SectionOracles :=
  { searchResult := fun _ => "sources"
    draft := fun _ => "draft"
    feedback := fun _ => { grade := Grade.fail, followUpQueries := [{ searchQuery := "follow-up" }] } }

/-- Initial state of the example branch. -/
def exBranchState : SectionState := initialSectionState exSend

/-- Witness for C2: with the always-fail grader and depth 2, the concrete
branch performs exactly 2 search iterations (terminating with fuel to spare,
not terminating within 1 pass), and its first `writeSection` loops back with
the follow-up queries substituted. -/
theorem writeSection_loop_policy_witness :
    Option.map (fun r => r.2) (runSectionLoop alwaysFailOracle 2 exBranchState (5 + 2))
      = some 2
  ∧ runSectionLoop alwaysFailOracle 2 exBranchState 1 = none
  ∧ writeSectionStep alwaysFailOracle 2 exBranchState = .toSearchWeb
      { gradedState alwaysFailOracle exBranchState with
        search_queries :=
          (alwaysFailOracle.feedback (gradedState alwaysFailOracle exBranchState)).followUpQueries } :=
  ⟨((writeSection_loop_policy_and_bounded_iterations alwaysFailOracle 2 exBranchState).2.2.2.2
      (fun _ => rfl) rfl).1 5,
   ((writeSection_loop_policy_and_bounded_iterations alwaysFailOracle 2 exBranchState).2.2.2.2
      (fun _ => rfl) rfl).2,
   (writeSection_loop_policy_and_bounded_iterations alwaysFailOracle 2 exBranchState).2.1
      ⟨rfl, by decide⟩⟩

/-- Helper: reading a cons cell of a string record. -/
lemma recordGet_cons (a : String × String) (m : List (String × String)) (k : String) :
    recordGet (a :: m) k = if a.1 = k then some a.2 else recordGet m k := by
  by_cases h : a.1 = k <;> simp [recordGet, List.find?_cons, h]

/-- Helper: reading a record extended with a fresh key. -/
lemma recordGet_append_new (m : List (String × String)) (k v : String)
    (h : m.any (fun kv => kv.1 == k) = false) (k' : String) :
    recordGet (m ++ [(k, v)]) k' = if k = k' then some v else recordGet m k' := by
  induction m with
  | nil =>
    by_cases h' : k = k' <;> simp [recordGet, List.find?_cons, h']
  | cons a m ih =>
    simp only [List.any_cons, Bool.or_eq_false_iff] at h
    obtain ⟨h1, h2⟩ := h
    have ha : a.1 ≠ k := by simpa using h1
    rw [List.cons_append, recordGet_cons, recordGet_cons]
    by_cases h' : a.1 = k'
    · have hk : k ≠ k' := fun hh => ha (h'.trans hh.symm)
      rw [if_pos h', if_neg hk, if_pos h']
    · rw [if_neg h', if_neg h', ih h2]

/-- Helper: overwriting a key that is absent from the record is the
identity. -/
lemma map_set_id (m : List (String × String)) (k v : String)
    (h : m.any (fun kv => kv.1 == k) = false) :
    m.map (fun kv => if kv.1 == k then (k, v) else kv) = m := by
  induction m with
  | nil => rfl
  | cons a m ih =>
    simp only [List.any_cons, Bool.or_eq_false_iff] at h
    obtain ⟨h1, h2⟩ := h
    rw [List.map_cons, ih h2, if_neg (by simp [h1])]

/-- Helper: reading a record after overwriting an existing key in place. -/
lemma recordGet_map_set (m : List (String × String)) (k v : String)
    (h : m.any (fun kv => kv.1 == k) = true) (k' : String) :
    recordGet (m.map (fun kv => if kv.1 == k then (k, v) else kv)) k'
      = if k = k' then some v else recordGet m k' := by
  induction m with
  | nil => simp at h
  | cons a m ih =>
    by_cases ha : a.1 = k
    · rw [List.map_cons, if_pos (show (a.1 == k) = true by simp [ha]),
          recordGet_cons, recordGet_cons]
      by_cases hk : k = k'
      · rw [if_pos hk, if_pos hk]
      · have ha' : a.1 ≠ k' := fun hh => hk (ha ▸ hh)
        rw [if_neg hk, if_neg hk, if_neg ha']
        cases hm : m.any (fun kv => kv.1 == k) with
        | true => rw [ih hm, if_neg hk]
        | false => rw [map_set_id m k v hm]
    · have hm : m.any (fun kv => kv.1 == k) = true := by
        simp only [List.any_cons] at h
        rcases Bool.or_eq_true_iff.mp h with h' | h'
        · exact absurd (by simpa using h') ha
        · exact h'
      rw [List.map_cons, if_neg (by simp [ha]), recordGet_cons, recordGet_cons, ih hm]
      by_cases h' : a.1 = k'
      · have hk : k ≠ k' := fun hh => ha (h'.trans hh.symm ▸ rfl)
        rw [if_pos h', if_neg hk, if_pos h']
      · rw [if_neg h', if_neg h']

/-- Helper: reading a record after one JavaScript-style assignment. -/
lemma recordGet_recordSet (m : List (String × String)) (k v k' : String) :
    recordGet (recordSet m k v) k' = if k = k' then some v else recordGet m k' := by
  unfold recordSet
  by_cases h : m.any (fun kv => kv.1 == k) = true
  · rw [if_pos h]
    exact recordGet_map_set m k v h k'
  · rw [if_neg h]
    have hf : m.any (fun kv => kv.1 == k) = false := by
      rw [← Bool.not_eq_true]
      exact h
    exact recordGet_append_new m k v hf k'

/-- Helper: the name-to-content record built by `compileFinalReport` resolves
a name to the unique completed section of that name, provided the completed
sections' names are pairwise distinct. -/
lemma recordGet_fold (completed : List Section) (m : List (String × String)) (k : String)
    (h : (completed.map (fun s => s.name)).Nodup) :
    recordGet (completed.foldl (fun m s => recordSet m s.name s.content) m) k
      = match completed.find? (fun s => s.name == k) with
        | some s => some s.content
        | none => recordGet m k := by
  induction completed generalizing m with
  | nil => rfl
  | cons s rest ih =>
    simp only [List.map_cons, List.nodup_cons] at h
    obtain ⟨hnotin, hnd⟩ := h
    rw [List.foldl_cons, ih _ hnd]
    by_cases hk : s.name = k
    · have hrest : rest.find? (fun t => t.name == k) = none := by
        rw [List.find?_eq_none]
        intro x hx
        simp only [Bool.not_eq_true, beq_eq_false_iff_ne]
        intro hxk
        exact hnotin (hxk.trans hk.symm ▸ List.mem_map_of_mem (fun t => t.name) hx)
      rw [hrest, List.find?_cons_of_pos _ (by simp [hk]), recordGet_recordSet, if_pos hk]
    · rw [List.find?_cons_of_neg _ (by simp [hk])]
      cases hf : rest.find? (fun t => t.name == k) with
      | none => rw [recordGet_recordSet, if_neg hk]
      | some t => rfl

/-- Helper: `compileFinalReport` expressed through a direct lookup of each
plan section's unique completed counterpart. -/
lemma compileFinalReport_eq_find (st : ReportState)
    (h : (st.completedSections.map (fun s => s.name)).Nodup) :
    compileFinalReport st = String.intercalate "\n\n" (st.sections.map (fun s =>
      match st.completedSections.find? (fun t => t.name == s.name) with
      | some t => if t.content = "" then s.content else t.content
      | none => s.content)) := by
  simp only [compileFinalReport, List.map_map]
  congr 1
  apply List.map_congr_left
  intro s _
  simp only [Function.comp]
  rw [recordGet_fold st.completedSections [] s.name h]
  cases hf : st.completedSections.find? (fun t => t.name == s.name) with
  | none => rfl
  | some t => by_cases hc : t.content = "" <;> simp [hc]

/-- Helper: under distinct names, `find?` by name is invariant under
permutation of the list. -/
lemma find?_name_of_perm (l₁ l₂ : List Section) (hp : l₁.Perm l₂)
    (hnd : (l₂.map (fun s => s.name)).Nodup) (k : String) :
    l₁.find? (fun s => s.name == k) = l₂.find? (fun s => s.name == k) := by
  cases h₁ : l₁.find? (fun s => s.name == k) with
  | none =>
    rw [List.find?_eq_none] at h₁
    symm
    rw [List.find?_eq_none]
    intro x hx
    exact h₁ x (hp.mem_iff.mpr hx)
  | some a =>
    have ha₂ : a ∈ l₂ := hp.mem_iff.mp (List.mem_of_find?_eq_some h₁)
    have hpa : a.name = k := by simpa using List.find?_some h₁
    cases h₂ : l₂.find? (fun s => s.name == k) with
    | none =>
      rw [List.find?_eq_none] at h₂
      exact absurd (show (a.name == k) = true by simp [hpa])
        (by simpa using h₂ a ha₂)
    | some b =>
      have hb₂ : b ∈ l₂ := List.mem_of_find?_eq_some h₂
      have hpb : b.name = k := by simpa using List.find?_some h₂
      have hab : a = b :=
        List.inj_on_of_nodup_map hnd ha₂ hb₂ (by rw [hpa, hpb])
      rw [hab]

/-- C4 -- `compileFinalReport` writes `finalReport` as the blank-line-joined
concatenation of section contents in the ORIGINAL plan order (each plan
section taking its completed counterpart's content when one exists with
non-empty content), and the result is invariant under the arrival order of
`completedSections`: any permutation of the completed sections compiles to
the same report. -/
theorem compileFinalReport_plan_order (st : ReportState) (completed2 : List Section)
    (hnd : (st.completedSections.map (fun s => s.name)).Nodup)
    (hperm : completed2.Perm st.completedSections) :
    compileFinalReport st = String.intercalate "\n\n" (st.sections.map (fun s =>
      match st.completedSections.find? (fun t => t.name == s.name) with
      | some t => if t.content = "" then s.content else t.content
      | none => s.content))
  ∧ compileFinalReport { st with completedSections := completed2 }
      = compileFinalReport st := by
  have hnd2 : (completed2.map (fun s => s.name)).Nodup :=
    ((hperm.map (fun s => s.name)).nodup_iff).mpr hnd
  refine ⟨compileFinalReport_eq_find st hnd, ?_⟩
  rw [compileFinalReport_eq_find { st with completedSections := completed2 } hnd2,
      compileFinalReport_eq_find st hnd]
  show String.intercalate "\n\n" (st.sections.map (fun s =>
      match completed2.find? (fun t => t.name == s.name) with
      | some t => if t.content = "" then s.content else t.content
      | none => s.content))
    = String.intercalate "\n\n" (st.sections.map (fun s =>
      match st.completedSections.find? (fun t => t.name == s.name) with
      | some t => if t.content = "" then s.content else t.content
      | none => s.content))
  congr 1
  apply List.map_congr_left
  intro s _
  rw [find?_name_of_perm completed2 st.completedSections hperm hnd s.name]

/-- Example report state whose plan order is A, B, C. -/
def exReport : ReportState :=
  { topic := "t", feedbackOnReportPlan := ""
    sections := [{ name := "A", description := "", research := true, content := "a0" },
                 { name := "B", description := "", research := true, content := "b0" },
                 { name := "C", description := "", research := false, content := "c0" }]
    completedSections := [{ name := "A", description := "", research := true, content := "a1" },
                          { name := "B", description := "", research := true, content := "b1" },
                          { name := "C", description := "", research := false, content := "c1" }]
    reportSectionsFromResearch := "", finalReport := "" }

/-- The same completed sections in the arrival order where B finished
first. -/
def exArrival : List Section :=
  [{ name := "B", description := "", research := true, content := "b1" },
   { name := "A", description := "", research := true, content := "a1" },
   { name := "C", description := "", research := false, content := "c1" }]

/-- Witness for C4: with plan order A, B, C and B arriving first, the
compiled report is the plan-order concatenation, identical to the one for
in-order arrival. -/
theorem compileFinalReport_plan_order_witness :
    compileFinalReport exReport = String.intercalate "\n\n" (exReport.sections.map (fun s =>
      match exReport.completedSections.find? (fun t => t.name == s.name) with
      | some t => if t.content = "" then s.content else t.content
      | none => s.content))
  ∧ compileFinalReport { exReport with completedSections := exArrival }
      = compileFinalReport exReport :=
  compileFinalReport_plan_order exReport exArrival (by decide) (by decide)

/-- Helper: the seen-set membership test of `deduplicateSources` agrees with
list membership. -/
lemma contains_iff_mem_str (seen : List String) (u : String) :
    seen.contains u = true ↔ u ∈ seen := by
  simp [List.contains, List.elem_iff]

/-- Helper: a Bool that is not true is false. -/
lemma bool_false_of_not_true {b : Bool} (h : ¬ b = true) : b = false := by
  rw [← Bool.not_eq_true]
  exact h

/-- Recursive formulation of the first-occurrence-per-URL filter performed by
the seen-set loop of `deduplicateSources`. -/
def dedupFirst (seen : List String) : List TavilySearchResult → List TavilySearchResult
  | [] => []
  | s :: rest =>
    if seen.contains s.url then dedupFirst seen rest
    else s :: dedupFirst (s.url :: seen) rest

/-- Helper: unfolding of `dedupFirst` on an already-seen URL. -/
lemma dedupFirst_cons_seen (seen : List String) (s : TavilySearchResult)
    (rest : List TavilySearchResult) (h : seen.contains s.url = true) :
    dedupFirst seen (s :: rest) = dedupFirst seen rest := by
  show (if seen.contains s.url = true then dedupFirst seen rest
        else s :: dedupFirst (s.url :: seen) rest) = dedupFirst seen rest
  rw [if_pos h]

/-- Helper: unfolding of `dedupFirst` on a fresh URL. -/
lemma dedupFirst_cons_fresh (seen : List String) (s : TavilySearchResult)
    (rest : List TavilySearchResult) (h : seen.contains s.url = false) :
    dedupFirst seen (s :: rest) = s :: dedupFirst (s.url :: seen) rest := by
  show (if seen.contains s.url = true then dedupFirst seen rest
        else s :: dedupFirst (s.url :: seen) rest) = s :: dedupFirst (s.url :: seen) rest
  rw [if_neg (by rw [h]; exact Bool.false_ne_true)]

/-- Helper: the seen-set fold of `deduplicateSources` computes
`dedupFirst`. -/
lemma dedup_foldl_eq (l : List TavilySearchResult) (seen : List String)
    (acc : List TavilySearchResult) :
    (l.foldl
      (fun (acc : List String × List TavilySearchResult) source =>
        if acc.1.contains source.url then acc
        else (source.url :: acc.1, acc.2 ++ [source])) (seen, acc)).2
      = acc ++ dedupFirst seen l := by
  induction l generalizing seen acc with
  | nil => simp [dedupFirst]
  | cons s rest ih =>
    cases hc : seen.contains s.url with
    | true =>
      rw [List.foldl_cons, dedupFirst_cons_seen seen s rest hc]
      dsimp only
      rw [if_pos hc, ih seen acc]
    | false =>
      rw [List.foldl_cons, dedupFirst_cons_fresh seen s rest hc]
      dsimp only
      rw [if_neg (by rw [hc]; exact Bool.false_ne_true), ih (s.url :: seen) (acc ++ [s])]
      simp

/-- Helper: the flattening fold of `deduplicateSources` appends all result
lists (empty ones contribute nothing either way). -/
lemma flatten_foldl_eq (rs : List TavilySearchResponse) (acc : List TavilySearchResult) :
    rs.foldl (fun acc r => if r.results.length > 0 then acc ++ r.results else acc) acc
      = acc ++ (rs.map (fun r => r.results)).flatten := by
  induction rs generalizing acc with
  | nil => simp
  | cons r rest ih =>
    rw [List.foldl_cons]
    by_cases h : r.results.length > 0
    · rw [if_pos h, ih]
      simp [List.append_assoc]
    · rw [if_neg h, ih]
      have hnil : r.results = [] := List.length_eq_zero.mp (by omega)
      simp [hnil]

/-- Helper: `dedupFirst` returns a subsequence of its input. -/
lemma dedupFirst_sublist (l : List TavilySearchResult) (seen : List String) :
    (dedupFirst seen l).Sublist l := by
  induction l generalizing seen with
  | nil => simp [dedupFirst]
  | cons s rest ih =>
    cases hc : seen.contains s.url with
    | true =>
      rw [dedupFirst_cons_seen seen s rest hc]
      exact (ih seen).trans (List.sublist_cons_self s rest)
    | false =>
      rw [dedupFirst_cons_fresh seen s rest hc]
      exact List.Sublist.cons₂ s (ih (s.url :: seen))

/-- Helper: URLs already seen never reappear in the output of
`dedupFirst`. -/
lemma dedupFirst_url_not_mem (l : List TavilySearchResult) (seen : List String)
    (u : String) (h : u ∈ seen) :
    u ∉ (dedupFirst seen l).map (fun s => s.url) := by
  induction l generalizing seen with
  | nil => simp [dedupFirst]
  | cons s rest ih =>
    cases hc : seen.contains s.url with
    | true =>
      rw [dedupFirst_cons_seen seen s rest hc]
      exact ih seen h
    | false =>
      rw [dedupFirst_cons_fresh seen s rest hc, List.map_cons]
      intro hmem
      rcases List.mem_cons.mp hmem with he | hmem2
      · rw [he] at h
        rw [(contains_iff_mem_str seen s.url).mpr h] at hc
        cases hc
      · exact ih (s.url :: seen) (List.mem_cons_of_mem _ h) hmem2

/-- Helper: the output of `dedupFirst` has pairwise-distinct URLs. -/
lemma dedupFirst_urls_nodup (l : List TavilySearchResult) (seen : List String) :
    ((dedupFirst seen l).map (fun s => s.url)).Nodup := by
  induction l generalizing seen with
  | nil => simp [dedupFirst]
  | cons s rest ih =>
    cases hc : seen.contains s.url with
    | true =>
      rw [dedupFirst_cons_seen seen s rest hc]
      exact ih seen
    | false =>
      rw [dedupFirst_cons_fresh seen s rest hc, List.map_cons, List.nodup_cons]
      exact ⟨dedupFirst_url_not_mem rest (s.url :: seen) s.url (List.mem_cons_self _ _), ih _⟩

/-- Helper: restricted to any one URL, `dedupFirst` keeps exactly the first
matching entry of its input (none if the URL was already seen). -/
lemma dedupFirst_filter (l : List TavilySearchResult) (seen : List String) (u : String) :
    (dedupFirst seen l).filter (fun s => s.url == u)
      = if u ∈ seen then [] else (l.filter (fun s => s.url == u)).take 1 := by
  induction l generalizing seen with
  | nil => by_cases hu : u ∈ seen <;> simp [dedupFirst, hu]
  | cons s rest ih =>
    cases hc : seen.contains s.url with
    | true =>
      have hsu : s.url ∈ seen := (contains_iff_mem_str seen s.url).mp hc
      rw [dedupFirst_cons_seen seen s rest hc, ih seen]
      by_cases hu : u ∈ seen
      · rw [if_pos hu, if_pos hu]
      · have hne : ¬((fun t : TavilySearchResult => t.url == u) s = true) := by
          simp only [beq_iff_eq]
          intro he
          exact hu (he ▸ hsu)
        rw [if_neg hu, if_neg hu,
            @List.filter_cons_of_neg _ (fun t : TavilySearchResult => t.url == u) s rest hne]
    | false =>
      have hsu : s.url ∉ seen := fun hh => by
        rw [(contains_iff_mem_str seen s.url).mpr hh] at hc
        cases hc
      rw [dedupFirst_cons_fresh seen s rest hc]
      by_cases he : s.url = u
      · have hpos : ((fun t : TavilySearchResult => t.url == u) s = true) := by simp [he]
        rw [@List.filter_cons_of_pos _ (fun t : TavilySearchResult => t.url == u) s
              (dedupFirst (s.url :: seen) rest) hpos,
            @List.filter_cons_of_pos _ (fun t : TavilySearchResult => t.url == u) s rest hpos,
            ih (s.url :: seen),
            if_pos (show u ∈ s.url :: seen from he ▸ List.mem_cons_self s.url seen),
            if_neg (he ▸ hsu)]
        simp
      · have hneg : ¬((fun t : TavilySearchResult => t.url == u) s = true) := by simp [he]
        rw [@List.filter_cons_of_neg _ (fun t : TavilySearchResult => t.url == u) s
              (dedupFirst (s.url :: seen) rest) hneg,
            @List.filter_cons_of_neg _ (fun t : TavilySearchResult => t.url == u) s rest hneg,
            ih (s.url :: seen)]
        by_cases hu : u ∈ seen
        · rw [if_pos (List.mem_cons_of_mem _ hu), if_pos hu]
        · have hnc : u ∉ s.url :: seen := fun hh =>
            (List.mem_cons.mp hh).elim (fun h' => he h'.symm) hu
          rw [if_neg hnc, if_neg hu]

/-- C7 -- `deduplicateSources` returns a list in which each URL appears at
most once (pairwise-distinct URLs), keeping for each URL exactly the
first-seen occurrence of the flattened input, in flattened input order (the
output is a subsequence of the flattened input). -/
theorem deduplicateSources_first_seen_unique (rs : List TavilySearchResponse) :
    ((deduplicateSources rs).map (fun s => s.url)).Nodup
  ∧ (∀ u, (deduplicateSources rs).filter (fun s => s.url == u)
        = (((rs.map (fun r => r.results)).flatten).filter (fun s => s.url == u)).take 1)
  ∧ (deduplicateSources rs).Sublist ((rs.map (fun r => r.results)).flatten) := by
  have hd : deduplicateSources rs = dedupFirst [] ((rs.map (fun r => r.results)).flatten) := by
    simp only [deduplicateSources]
    rw [flatten_foldl_eq rs [], List.nil_append, dedup_foldl_eq, List.nil_append]
  refine ⟨?_, ?_, ?_⟩
  · rw [hd]
    exact dedupFirst_urls_nodup _ []
  · intro u
    rw [hd, dedupFirst_filter, if_neg (List.not_mem_nil u)]
  · rw [hd]
    exact dedupFirst_sublist _ []

end ODR
